import Mathlib

/-!
Shallow embedding of the move-tree core of the pgn-viewer sources
(Path addressing, move tree, Game wrapper, PgnViewer mutations and the
PGN serializer).  JS strings are embedded as lists of characters, JS
arrays as lists, nullable values as Option, and in-place mutation of the
shared tree as explicit state passing on a PgnViewer record.
-/

namespace Pgn

/-- One move's data (source interface MoveData).  Only the fields the
verified operations read or write are embedded: id (the 2-character move
identifier), san, ply, path, comments and nags.  The remaining scalar
fields (uci, fen, turn, check, clocks, ...) are never touched by the
operations under study. -/
structure MoveData where
  id : List Char
  san : String
  ply : Nat
  path : List Char
  comments : List String
  nags : List Nat
deriving DecidableEq

/-- A tree node (source type AnyNode = Node<MoveData>).  The root node
has no data; every child produced by the game builder carries data.  The
source distinguishes the two shapes by probing for the data field, which
is embedded as an Option. -/
inductive AnyNode where
  | mk : Option MoveData → List AnyNode → AnyNode

def AnyNode.data : AnyNode → Option MoveData
  | .mk d _ => d

def AnyNode.children : AnyNode → List AnyNode
  | .mk _ cs => cs

/-- Source class Path: a JS string of concatenated 2-character move
identifiers, embedded as a list of characters.  Every operation is a
fresh value (the source never mutates a Path in place). -/
structure Path where
  path : List Char
deriving DecidableEq

/-- Path.size: this.path.length / 2. -/
def Path.size (p : Path) : Nat := p.path.length / 2

/-- Path.head: this.path.slice(0, 2). -/
def Path.head (p : Path) : List Char := p.path.take 2

/-- Path.tail: new Path(this.path.slice(2)). -/
def Path.tail (p : Path) : Path := ⟨p.path.drop 2⟩

/-- Path.init: new Path(this.path.slice(0, -2)); JS slice clamps the
negative end index at 0, so an empty or 1-character path yields the
empty path. -/
def Path.init (p : Path) : Path := ⟨p.path.take (p.path.length - 2)⟩

/-- Path.last: this.path.slice(-2); JS clamps the negative start index
at 0, so a short path is returned whole. -/
def Path.last (p : Path) : List Char := p.path.drop (p.path.length - 2)

/-- Path.empty: this.path == "". -/
def Path.empty (p : Path) : Bool := p.path.isEmpty

/-- Path.contains: this.path.startsWith(other.path). -/
def Path.contains (p other : Path) : Bool := other.path.isPrefixOf p.path

/-- Path.append: new Path(this.path + id). -/
def Path.append (p : Path) (id : List Char) : Path := ⟨p.path ++ id⟩

/-- Path.equals: this.path == other.path. -/
def Path.equals (p other : Path) : Bool := p.path == other.path

/-- Path.root: the empty path. -/
def Path.root : Path := ⟨[]⟩

/-- Source function head(path): path.slice(0, 2). -/
def head (path : List Char) : List Char := path.take 2

/-- Source function tail(path): path.slice(2). -/
def tail (path : List Char) : List Char := path.drop 2

/-- Source function childById: node.children.find(child => child.data?.id === id).
A data-less child never matches (undefined === id is false for a string id). -/
def childById (node : AnyNode) (id : List Char) : Option AnyNode :=
  node.children.find? (fun child => child.data.map (·.id) == some id)

/-- Source nodeAtPathOrNullFrom (and the identical nodeAtPathFrom used by
Game.nodeAt): the empty path resolves to the node itself, otherwise the
head identifier (first two characters) selects a child by id and the
tail is resolved from there.  The one-character case spells out
head = that character, tail = empty on an odd-length path. -/
def nodeAtPathOrNullFrom : AnyNode → List Char → Option AnyNode
  | node, [] => some node
  | node, a :: b :: rest =>
    match childById node [a, b] with
    | some child => nodeAtPathOrNullFrom child rest
    | none => none
  | node, [a] =>
    match childById node [a] with
    | some child => some child
    | none => none

/-- Embeds chessops Node.mainline(): walk the first-child chain from
this node, yielding each visited child's data.  (A data-less child
contributes nothing; the builder only creates children with data.) -/
def AnyNode.mainline : AnyNode → List MoveData
  | .mk _ [] => []
  | .mk _ (c :: _) => c.data.toList ++ AnyNode.mainline c

/-- Embeds chessops Node.end(): follow first children to the last node
of the mainline (the node itself when childless). -/
def AnyNode.endNode : AnyNode → AnyNode
  | .mk d [] => .mk d []
  | .mk _ (c :: _) => AnyNode.endNode c

/-- The identifier path of the node Node.end() returns: the ids along
the first-child chain.  Used to re-locate, after a structural edit, the
node reference the source captures before the edit (sibling ids are
pairwise distinct in built games, and the edits below only reorder or
extend child lists, so id-resolution finds the same node). -/
def endPathFrom : AnyNode → List Char
  | .mk _ [] => []
  | .mk _ (c :: _) => (c.data.map (·.id)).getD [] ++ endPathFrom c

/-- Replace the first child whose id matches (the one childById finds)
by the given node; embeds the in-place mutation of that child. -/
def setFirstById : List AnyNode → List Char → AnyNode → List AnyNode
  | [], _, _ => []
  | c :: cs, id, c' =>
    if c.data.map (·.id) == some id then c' :: cs
    else c :: setFirstById cs id c'

/-- Source PgnViewer.updateAt(parentPath, update): resolve the path and
apply the in-place mutation to the resolved node.  Functionally: return
the updated root when the path resolves, none otherwise. -/
def updateAt : AnyNode → List Char → (AnyNode → AnyNode) → Option AnyNode
  | n, [], f => some (f n)
  | n, a :: b :: rest, f =>
    match childById n [a, b] with
    | some child =>
      (updateAt child rest f).map (fun c' => AnyNode.mk n.data (setFirstById n.children [a, b] c'))
    | none => none
  | n, [a], f =>
    match childById n [a] with
    | some child => some (AnyNode.mk n.data (setFirstById n.children [a] (f child)))
    | none => none

/-- Source Metadata (only the result field is touched by the verified
operations). -/
structure Metadata where
  result : Option String
deriving DecidableEq

/-- Source class Game: the root tree, metadata and the mainline array
cached by the constructor.  (Players and the initial position data are
never read by the verified operations.) -/
structure Game where
  moves : AnyNode
  metadata : Metadata
  mainline : List MoveData

/-- The Game constructor: this.mainline = Array.from(this.moves.mainline()). -/
def Game.make (moves : AnyNode) (metadata : Metadata) : Game :=
  { moves := moves, metadata := metadata, mainline := moves.mainline }

/-- Game.nodeAt(path): nodeAtPathFrom(this.moves, path) — the same
traversal as nodeAtPathOrNullFrom. -/
def Game.nodeAt (g : Game) (p : Path) : Option AnyNode :=
  nodeAtPathOrNullFrom g.moves p.path

/-- Argument of pathAtMainlinePly: a ply number or the marker "last". -/
inductive PlyArg where
  | num : Nat → PlyArg
  | last : PlyArg

/-- Source Game.pathAtMainlinePly: ply 0 gives the root path, otherwise
the index max(0, min(mainline.length - 1, ply == "last" ? 9999 : ply - 1))
is looked up in the cached mainline (JS arithmetic on possibly negative
numbers is embedded over Int); a missing element falls back to the root
path. -/
def Game.pathAtMainlinePly (g : Game) (ply : PlyArg) : Path :=
  match ply with
  | .num 0 => Path.root
  | _ =>
    let n : Int := match ply with | .last => 9999 | .num k => (k : Int) - 1
    let idx : Int := max 0 (min ((g.mainline.length : Int) - 1) n)
    match g.mainline.get? idx.toNat with
    | some d => ⟨d.path⟩
    | none => Path.root

/-- Cursor targets (source type GoTo). -/
inductive GoTo where
  | first : GoTo
  | prev : GoTo
  | next : GoTo
  | last : GoTo

/-- Source class PgnViewer: the mutable controller state the verified
operations touch — the Game and the current path.  (The pane, flip and
scroll flags are presentation state never read by these operations.) -/
structure PgnViewer where
  game : Game
  path : Path

/-- PgnViewer.nodeAtPathOrNull(path). -/
def PgnViewer.nodeAtPathOrNull (v : PgnViewer) (path : List Char) : Option AnyNode :=
  nodeAtPathOrNullFrom v.game.moves path

/-- PgnViewer.curNode(): this.game.nodeAt(this.path) || this.game.moves. -/
def PgnViewer.curNode (v : PgnViewer) : AnyNode :=
  (v.game.nodeAt v.path).getD v.game.moves

/-- PgnViewer.canGoTo: prev/first need a non-root path, next/last need a
first child on the current node (!!children[0]). -/
def PgnViewer.canGoTo (v : PgnViewer) (t : GoTo) : Bool :=
  match t with
  | .prev | .first => !v.path.empty
  | .next | .last => (v.curNode.children.get? 0).isSome

/-- PgnViewer.addNode(node, parentPath): newPath = parentPath +
(node.data?.id || ""); if newPath already resolves, return it without
touching the tree; otherwise push the node onto the resolved parent's
children (returning none when the parent does not resolve). -/
def PgnViewer.addNode (v : PgnViewer) (node : AnyNode) (parentPath : List Char) :
    Option (List Char) × PgnViewer :=
  let newPath := parentPath ++ ((node.data.map (·.id)).getD [])
  match nodeAtPathOrNullFrom v.game.moves newPath with
  | some _ => (some newPath, v)
  | none =>
    match updateAt v.game.moves parentPath
        (fun parent => AnyNode.mk parent.data (parent.children ++ [node])) with
    | some newRoot => (some newPath, { v with game := { v.game with moves := newRoot } })
    | none => (none, v)

/-- PgnViewer.addNodes(nodes, path): fold addNode over the list,
threading the returned path; an empty list returns the incoming path,
a failed addNode aborts with none. -/
def PgnViewer.addNodes (v : PgnViewer) (nodes : List AnyNode) (path : List Char) :
    Option (List Char) × PgnViewer :=
  match nodes with
  | [] => (some path, v)
  | node :: rest =>
    match v.addNode node path with
    | (some newPath, v') => v'.addNodes rest newPath
    | (none, v') => (none, v')

/-- PgnViewer.deleteNode(nodePath): split the path into parent path and
trailing id, resolve the parent, find the child by id and splice it out;
the return value is the last element of the post-deletion mainline
(mainline[mainline.length - 1]), none when the parent or the child is
not found (the tree is then left unchanged). -/
def PgnViewer.deleteNode (v : PgnViewer) (nodePath : List Char) :
    Option MoveData × PgnViewer :=
  let parentId := nodePath.take (nodePath.length - 2)
  let nodeId := nodePath.drop (nodePath.length - 2)
  match nodeAtPathOrNullFrom v.game.moves parentId with
  | none => (none, v)
  | some parentNode =>
    match parentNode.children.findIdx? (fun child => child.data.map (·.id) == some nodeId) with
    | none => (none, v)
    | some index =>
      let v' :=
        match updateAt v.game.moves parentId
            (fun p => AnyNode.mk p.data (p.children.eraseIdx index)) with
        | some newRoot => { v with game := { v.game with moves := newRoot } }
        | none => v
      let ml := v'.game.moves.mainline
      (ml.get? (ml.length - 1), v')

/-- Rebuild a node with its data's comment list transformed (identity on
a data-less node); embeds the in-place comment mutations. -/
def withComments (n : AnyNode) (f : List String → List String) : AnyNode :=
  AnyNode.mk (n.data.map (fun d => { d with comments := f d.comments })) n.children

/-- JS Array.prototype.splice(start, 1) restricted to the removal it
performs: a negative start counts from the end and is clamped at 0; a
start at or past the length removes nothing. -/
def jsSpliceRemoveOne (l : List String) (index : Int) : List String :=
  let start : Nat := if index < 0 then (max ((l.length : Int) + index) 0).toNat
    else min index.toNat l.length
  l.take start ++ l.drop (start + 1)

/-- JS indexed assignment comments[index] = s under the guard
index < comments.length: a non-negative index replaces that element; a
negative index creates a non-index property and leaves the list's
elements untouched. -/
def jsIndexAssign (l : List String) (index : Int) (s : String) : List String :=
  if 0 ≤ index then l.set index.toNat s else l

/-- PgnViewer.deleteComment(path, index): when the path resolves to a
node with data and index < comments.length (a JS signed comparison, so
every negative index passes), splice one comment out; otherwise leave
the state unchanged. -/
def PgnViewer.deleteComment (v : PgnViewer) (path : List Char) (index : Int) : PgnViewer :=
  match nodeAtPathOrNullFrom v.game.moves path with
  | some node =>
    match node.data with
    | some d =>
      if index < (d.comments.length : Int) then
        match updateAt v.game.moves path
            (fun n => withComments n (fun cs => jsSpliceRemoveOne cs index)) with
        | some newRoot => { v with game := { v.game with moves := newRoot } }
        | none => v
      else v
    | none => v
  | none => v

/-- PgnViewer.editComment(path, index, newComment): same guard as
deleteComment, then comments[index] = newComment. -/
def PgnViewer.editComment (v : PgnViewer) (path : List Char) (index : Int)
    (newComment : String) : PgnViewer :=
  match nodeAtPathOrNullFrom v.game.moves path with
  | some node =>
    match node.data with
    | some d =>
      if index < (d.comments.length : Int) then
        match updateAt v.game.moves path
            (fun n => withComments n (fun cs => jsIndexAssign cs index newComment)) with
        | some newRoot => { v with game := { v.game with moves := newRoot } }
        | none => v
      else v
    | none => v
  | none => v

/-- The findLastNode helper inside promoteVariation: follow first
children to the end of the line — the same walk as Node.end(). -/
def findLastNode (n : AnyNode) : AnyNode := n.endNode

/-- JS String.prototype.replace with a plain-string pattern: replace the
first occurrence of the pattern with the empty string (splitOn finds the
occurrences; only the first separator is dropped). -/
def jsReplaceFirst (s pat : String) : String :=
  match s.splitOn pat with
  | [] => s
  | [x] => x
  | x :: y :: rest => x ++ String.intercalate pat (y :: rest)

/-- Clear the comment list of every mainline node's data: the source
iterates game.moves.mainline() and assigns node.comments = [] through
the shared data references. -/
def clearMainlineComments : AnyNode → AnyNode
  | .mk d [] => .mk d []
  | .mk d (c :: rest) => .mk d (withComments (clearMainlineComments c) (fun _ => []) :: rest)

/-- PgnViewer.promoteVariation(variationPath), step by step as in the
source: capture the end of the current mainline, resolve the variation
node and its parent, splice the variation out of the parent's children
and unshift it to the front, point the cursor at it; then, when the game
has a (truthy, i.e. nonempty) recorded result and the captured end node
has data, append a synthetic "Result: ..." comment to it and set the
result to "*"; next, if the last node of the promoted line carries a
comment starting with "Result:", adopt it (stripping "Result: ") as the
game result; finally clear the comments of every node now on the
mainline.  Any resolution failure returns the state unchanged. -/
def PgnViewer.promoteVariation (v : PgnViewer) (variationPath : List Char) : PgnViewer :=
  let endPath := endPathFrom v.game.moves
  match nodeAtPathOrNullFrom v.game.moves variationPath with
  | none => v
  | some variationNode =>
    match variationNode.data with
    | none => v
    | some vdata =>
      let parentPath := variationPath.take (variationPath.length - 2)
      match nodeAtPathOrNullFrom v.game.moves parentPath with
      | none => v
      | some parentNode =>
        match parentNode.children.findIdx?
            (fun child => child.data.map (·.id) == some vdata.id) with
        | none => v
        | some variationIndex =>
          match parentNode.children.get? variationIndex with
          | none => v
          | some removedNode =>
            let removedId := (removedNode.data.map (·.id)).getD []
            let moves1 := (updateAt v.game.moves parentPath
              (fun p => AnyNode.mk p.data
                (removedNode :: p.children.eraseIdx variationIndex))).getD v.game.moves
            let newSelfPath : Path := ⟨parentPath ++ removedId⟩
            let step2 : AnyNode × Option String :=
              match v.game.metadata.result with
              | some mainlineResult =>
                if mainlineResult ≠ "" then
                  match nodeAtPathOrNullFrom moves1 endPath with
                  | some lastNodeToAddComment =>
                    match lastNodeToAddComment.data with
                    | some _ =>
                      ((updateAt moves1 endPath
                          (fun n => withComments n
                            (fun cs => cs ++ ["Result: " ++ mainlineResult]))).getD moves1,
                        some "*")
                    | none => (moves1, v.game.metadata.result)
                  | none => (moves1, v.game.metadata.result)
                else (moves1, v.game.metadata.result)
              | none => (moves1, v.game.metadata.result)
            let moves2 := step2.1
            let result2 := step2.2
            let newMainlineLastNode :=
              findLastNode ((nodeAtPathOrNullFrom moves2 (parentPath ++ removedId)).getD moves2)
            let newMainlineResult :=
              match newMainlineLastNode.data with
              | some d => d.comments.find? (fun c => c.startsWith "Result:")
              | none => none
            let result3 :=
              match newMainlineResult with
              | some c => some (jsReplaceFirst c "Result: ")
              | none => result2
            let moves3 := clearMainlineComments moves2
            { v with
              game := { moves := moves3, metadata := { result := result3 },
                        mainline := v.game.mainline },
              path := newSelfPath }

/-- PgnViewer.plyPrefix: the move number Math.floor((ply + 1) / 2)
followed by ". " after a White move (odd ply) and "... " otherwise;
a data-less node counts as ply 0. -/
def plyPrefix (node : AnyNode) : String :=
  let ply := (node.data.map (·.ply)).getD 0
  toString ((ply + 1) / 2) ++ (if ply % 2 == 1 then ". " else "... ")

/-- PgnViewer.formatNags: dollar-code tokens joined by spaces. -/
def formatNags (nags : List Nat) : String :=
  String.intercalate " " (nags.map (fun nag => "$" ++ toString nag))

/-- The mainline comment blocks of exportNode: each comment appended as
a brace-delimited block with surrounding spaces. -/
def commentBlocks (cs : List String) : String :=
  String.join (cs.map (fun comment => " \x7b " ++ comment ++ " \x7d "))

mutual
/-- PgnViewer.exportNode(node, forcePly): a childless node emits
nothing; otherwise emit the first child (move-number prefix when forced
or on an odd ply, san, nags, comments), then every later child as a
parenthesized variation, then the first child's subtree with forced
numbering exactly when this node had more than one child. -/
def exportNode : AnyNode → Bool → String
  | .mk _ [], _ => ""
  | .mk _ (first :: rest), forcePly =>
    let s1 := if forcePly || (first.data.map (·.ply)).getD 0 % 2 == 1 then plyPrefix first else ""
    let s2 := s1 ++ (first.data.map (·.san)).getD "undefined"
    let s3 := s2 ++ (if (first.data.map (·.nags.length)).getD 0 ≠ 0 then
        " " ++ formatNags ((first.data.map (·.nags)).getD []) else "")
    let s4 := s3 ++ commentBlocks ((first.data.map (·.comments)).getD [])
    let s5 := s4 ++ exportVariations rest
    let mainlineStr := exportNode first (rest.length > 0)
    s5 ++ (if mainlineStr ≠ "" then " " ++ mainlineStr else "")

/-- The variation loop of exportNode (children at index >= 1): each
child opens " (", emits a forced move-number prefix, its san, its nags,
its comments as tight brace blocks, then its own subtree exported with
forcePly = false (prefixed by a space when nonempty), and closes ")". -/
def exportVariations : List AnyNode → String
  | [] => ""
  | child :: cs =>
    " (" ++ plyPrefix child ++ (child.data.map (·.san)).getD "undefined"
      ++ (if (child.data.map (·.nags.length)).getD 0 ≠ 0 then
            " " ++ formatNags ((child.data.map (·.nags)).getD []) else "")
      ++ String.join (((child.data.map (·.comments)).getD []).map
            (fun comment => "\x7b" ++ comment ++ "\x7d "))
      ++ (let variation := exportNode child false
          if variation ≠ "" then " " ++ variation else "")
      ++ ")"
      ++ exportVariations cs
end

/-!  Concrete fixture: the game 1.e4 e5 2.Nf3 with the variation 1.e4 c5
and recorded result 1-0, as described in the specification's promotion
scenario.  Identifiers are arbitrary 2-character strings (the real ones
come from the external move-id oracle). -/

def e4d : MoveData := ⟨['e', '4'], "e4", 1, ['e', '4'], [], []⟩

def e5d : MoveData := ⟨['e', '5'], "e5", 2, ['e', '4', 'e', '5'], [], []⟩

def nf3d : MoveData := ⟨['n', 'f'], "Nf3", 3, ['e', '4', 'e', '5', 'n', 'f'], [], []⟩

def c5d : MoveData := ⟨['c', '5'], "c5", 2, ['e', '4', 'c', '5'], [], []⟩

def scenarioTree : AnyNode :=
  .mk none [.mk (some e4d) [.mk (some e5d) [.mk (some nf3d) []], .mk (some c5d) []]]

def scenarioViewer : PgnViewer :=
  { game := Game.make scenarioTree ⟨some "1-0"⟩, path := Path.root }

/-- The scenario viewer after promoting the c5 variation. -/
def promoted : PgnViewer := scenarioViewer.promoteVariation ['e', '4', 'c', '5']

/-- C1: promoting the c5 variation of 1.e4 e5 2.Nf3 (result 1-0) makes
1.e4 c5 the new mainline with the c5 node as first child of the e4 node,
appends the comment "Result: 1-0" to the old mainline's last node (Nf3),
sets the game result to the unterminated marker "*", and — since c5 has
no continuation carrying a "Result:" comment — the result stays "*". -/
theorem C1_promoteVariation_scenario :
    promoted.game.moves.mainline = [e4d, c5d] ∧
    (nodeAtPathOrNullFrom promoted.game.moves ['e', '4']).map
        (fun n => n.children.map (·.data)) = some [some c5d, some e5d] ∧
    (nodeAtPathOrNullFrom promoted.game.moves ['e', '4', 'e', '5', 'n', 'f']).bind
        (·.data) = some { nf3d with comments := ["Result: 1-0"] } ∧
    promoted.game.metadata.result = some "*" := by
  refine ⟨rfl, rfl, rfl, rfl⟩

/-- The first-child chain of nodes below a node: the nodes visited by
repeatedly following the first child down to a childless node. -/
def firstChildChain : AnyNode → List AnyNode
  | .mk _ [] => []
  | .mk _ (c :: _) => c :: firstChildChain c

theorem mainline_eq_chain (moves : AnyNode) :
    moves.mainline = (firstChildChain moves).filterMap AnyNode.data := by
  induction moves using AnyNode.mainline.induct with
  | case1 d => rfl
  | case2 d c rest ih =>
    simp only [AnyNode.mainline, firstChildChain, List.filterMap_cons]
    cases h : c.data <;> simp [h, ih, Option.toList]

/-- C2 (counterexample): after promoteVariation on the scenario game the
cached Game.mainline still lists 1.e4 e5 2.Nf3 while the tree's
first-child chain is 1.e4 c5 — the cache is not recomputed. -/
theorem C2_cached_mainline_stale :
    promoted.game.mainline ≠ promoted.game.moves.mainline ∧
    promoted.game.mainline = [e4d, e5d, nf3d] ∧
    promoted.game.moves.mainline = [e4d, c5d] := by
  refine ⟨by decide, rfl, rfl⟩

/-- C2 (amended): the cached mainline equals the first-child chain at
Game construction time (and has the chain's length when every chain node
carries data, i.e. it equals the ply count), but the mutation operations
promoteVariation, addNode and deleteNode never recompute the cached
field, so it can go stale. -/
theorem C2_mainline_cache :
    (∀ (moves : AnyNode) (md : Metadata),
      (Game.make moves md).mainline = (firstChildChain moves).filterMap AnyNode.data) ∧
    (∀ (moves : AnyNode) (md : Metadata),
      (∀ n ∈ firstChildChain moves, (AnyNode.data n).isSome) →
      (Game.make moves md).mainline.length = (firstChildChain moves).length) ∧
    (∀ (v : PgnViewer) (q : List Char),
      (v.promoteVariation q).game.mainline = v.game.mainline) ∧
    (∀ (v : PgnViewer) (node : AnyNode) (q : List Char),
      ((v.addNode node q).2).game.mainline = v.game.mainline) ∧
    (∀ (v : PgnViewer) (q : List Char),
      ((v.deleteNode q).2).game.mainline = v.game.mainline) := by
  refine ⟨fun moves md => mainline_eq_chain moves, fun moves md h => ?_, ?_, ?_, ?_⟩
  · rw [show (Game.make moves md).mainline = moves.mainline from rfl, mainline_eq_chain]
    generalize firstChildChain moves = l at h
    induction l with
    | nil => rfl
    | cons x xs ih =>
      have hx := h x (by simp)
      cases hhx : x.data with
      | none => rw [hhx] at hx; simp at hx
      | some d =>
        simp only [List.filterMap_cons, hhx, List.length_cons]
        rw [ih (fun n hn => h n (by simp [hn]))]
  · intro v q
    unfold PgnViewer.promoteVariation
    repeat' first | rfl | split | dsimp only
  · intro v node q
    unfold PgnViewer.addNode
    repeat' first | rfl | split | dsimp only
  · intro v q
    unfold PgnViewer.deleteNode
    repeat' first | rfl | split | dsimp only

/-- C7: canGoTo(prev) and canGoTo(first) hold exactly when the current
path is non-root, canGoTo(next) and canGoTo(last) exactly when the
current node has at least one child. -/
theorem C7_canGoTo_boundaries (v : PgnViewer) :
    (v.canGoTo .prev = true ↔ v.path ≠ Path.root) ∧
    (v.canGoTo .first = true ↔ v.path ≠ Path.root) ∧
    (v.canGoTo .next = true ↔ v.curNode.children ≠ []) ∧
    (v.canGoTo .last = true ↔ v.curNode.children ≠ []) := by
  have hpath : (!v.path.empty) = true ↔ v.path ≠ Path.root := by
    cases v.path with
    | mk l =>
      cases l <;> simp [Path.empty, Path.root, List.isEmpty]
  have hnext : ((v.curNode.children.get? 0).isSome = true) ↔ v.curNode.children ≠ [] := by
    cases v.curNode.children <;> simp
  exact ⟨hpath, hpath, hnext, hnext⟩

/-- The string exportVariations emits for one variation child, exactly
as in the source loop: " (" then a forced move-number prefix, the san,
the nag tokens, the tight brace-delimited comments, the child's own
subtree exported with forcePly = false (space-prefixed when nonempty),
and ")". -/
def variationFragment (child : AnyNode) : String :=
  " (" ++ plyPrefix child ++ (child.data.map (·.san)).getD "undefined"
    ++ (if (child.data.map (·.nags.length)).getD 0 ≠ 0 then
          " " ++ formatNags ((child.data.map (·.nags)).getD []) else "")
    ++ String.join (((child.data.map (·.comments)).getD []).map
          (fun comment => "\x7b" ++ comment ++ "\x7d "))
    ++ (let variation := exportNode child false
        if variation ≠ "" then " " ++ variation else "")
    ++ ")"

/-- The variation fragment as the specification for C3 words it: the
same shape but with the child's subtree serialized with forced numbering
ON (the source passes false instead).  This definition follows the
spec's words and exists only to be compared with the source's
behavior. -/
def specVariationFragment (child : AnyNode) : String :=
  " (" ++ plyPrefix child ++ (child.data.map (·.san)).getD "undefined"
    ++ (if (child.data.map (·.nags.length)).getD 0 ≠ 0 then
          " " ++ formatNags ((child.data.map (·.nags)).getD []) else "")
    ++ String.join (((child.data.map (·.comments)).getD []).map
          (fun comment => "\x7b" ++ comment ++ "\x7d "))
    ++ (let variation := exportNode child true
        if variation ≠ "" then " " ++ variation else "")
    ++ ")"

/-- The head part of exportNode for the first child: optional
move-number prefix, san, nag tokens and spaced comment blocks. -/
def exportFirstPart (first : AnyNode) (forcePly : Bool) : String :=
  (if forcePly || (first.data.map (·.ply)).getD 0 % 2 == 1 then plyPrefix first else "")
    ++ (first.data.map (·.san)).getD "undefined"
    ++ (if (first.data.map (·.nags.length)).getD 0 ≠ 0 then
          " " ++ formatNags ((first.data.map (·.nags)).getD []) else "")
    ++ commentBlocks ((first.data.map (·.comments)).getD [])

/-- The trailing part of exportNode: the first child's subtree with
forced numbering exactly when a variation interrupted the line. -/
def exportMainlinePart (first : AnyNode) (rest : List AnyNode) : String :=
  let mainlineStr := exportNode first (rest.length > 0)
  if mainlineStr ≠ "" then " " ++ mainlineStr else ""

/-- Fixture for C3: the variation 1.d4 d5 attached beside 1.e4 — the
variation's continuation d5 is a Black move (even ply), where the
forcePly flag of the recursive export call is observable. -/
def d4d : MoveData := ⟨['d', '4'], "d4", 1, ['d', '4'], [], []⟩

def d5d : MoveData := ⟨['d', '5'], "d5", 2, ['d', '4', 'd', '5'], [], []⟩

def d4Node : AnyNode := .mk (some d4d) [.mk (some d5d) []]

/-- C3 (counterexample): the claim predicts the variation subtree is
serialized with forced numbering on, which would emit " (1. d4 1... d5)";
the source passes forcePly = false and emits " (1. d4 d5)". -/
theorem C3_forced_numbering_cex :
    exportVariations [d4Node] ≠ specVariationFragment d4Node ∧
    exportVariations [d4Node] = " (1. d4 d5)" ∧
    specVariationFragment d4Node = " (1. d4 1... d5)" := by
  refine ⟨by decide, by decide, by decide⟩

/-- C3 (amended): for every node with two or more children the
serializer emits each child at index >= 1 as a parenthesized variation —
opening parenthesis, forced move-number prefix, the child's notation,
its nag tokens and comments, then the child's own subtree serialized
with forced numbering OFF, then the closing parenthesis. -/
theorem C3_variation_serialization :
    (∀ (d : Option MoveData) (first : AnyNode) (rest : List AnyNode) (forcePly : Bool),
      exportNode (AnyNode.mk d (first :: rest)) forcePly =
        exportFirstPart first forcePly ++ exportVariations rest
          ++ exportMainlinePart first rest) ∧
    (∀ (child : AnyNode) (cs : List AnyNode),
      exportVariations (child :: cs) = variationFragment child ++ exportVariations cs) :=
  ⟨fun _ _ _ _ => rfl, fun _ _ => rfl⟩

theorem AnyNode.eta (n : AnyNode) : AnyNode.mk n.data n.children = n := by
  cases n
  rfl

theorem find?_setFirstById (cs : List AnyNode) (id : List Char) (c c' : AnyNode)
    (hfind : cs.find? (fun child => child.data.map (·.id) == some id) = some c)
    (hid : (c'.data).map (·.id) = (c.data).map (·.id)) :
    (setFirstById cs id c').find? (fun child => child.data.map (·.id) == some id) = some c' := by
  induction cs with
  | nil => simp at hfind
  | cons x xs ih =>
    unfold setFirstById
    cases hx : (x.data.map (·.id) == some id) with
    | true =>
      rw [if_pos rfl]
      simp only [List.find?, hx] at hfind
      injection hfind with hcx
      subst hcx
      simp [List.find?, hid, hx]
    | false =>
      rw [if_neg (by simp)]
      simp only [List.find?, hx] at hfind
      simp only [List.find?, hx]
      exact ih hfind

theorem setFirstById_self (cs : List AnyNode) (id : List Char) (c : AnyNode)
    (hfind : cs.find? (fun child => child.data.map (·.id) == some id) = some c) :
    setFirstById cs id c = cs := by
  induction cs with
  | nil => rfl
  | cons x xs ih =>
    unfold setFirstById
    cases hx : (x.data.map (·.id) == some id) with
    | true =>
      rw [if_pos rfl]
      simp only [List.find?, hx] at hfind
      injection hfind with hcx
      rw [hcx]
    | false =>
      rw [if_neg (by simp)]
      simp only [List.find?, hx] at hfind
      rw [ih hfind]

theorem updateAt_id_preserve (f : AnyNode → AnyNode)
    (hf : ∀ m, ((f m).data).map (·.id) = (m.data).map (·.id)) (p : List Char) :
    ∀ (t t' : AnyNode), updateAt t p f = some t' →
      (t'.data).map (·.id) = (t.data).map (·.id) := by
  intro t t' h
  match p with
  | [] =>
    simp only [updateAt, Option.some.injEq] at h
    subst h
    exact hf t
  | a :: b :: rest =>
    simp only [updateAt] at h
    cases hc : childById t [a, b] with
    | none => simp [hc] at h
    | some child =>
      simp only [hc] at h
      cases hu : updateAt child rest f with
      | none => simp [hu] at h
      | some c' =>
        simp only [hu] at h
        simp at h
        subst h
        rfl
  | [a] =>
    simp only [updateAt] at h
    cases hc : childById t [a] with
    | none => simp [hc] at h
    | some child =>
      simp only [hc, Option.some.injEq] at h
      subst h
      rfl

theorem updateAt_resolves (f : AnyNode → AnyNode)
    (hf : ∀ m, ((f m).data).map (·.id) = (m.data).map (·.id)) :
    ∀ (t : AnyNode) (p : List Char) (n : AnyNode), nodeAtPathOrNullFrom t p = some n →
      ∃ t', updateAt t p f = some t' ∧ nodeAtPathOrNullFrom t' p = some (f n) := by
  intro t p
  induction t, p using nodeAtPathOrNullFrom.induct with
  | case1 node =>
    intro n hn
    simp only [nodeAtPathOrNullFrom, Option.some.injEq] at hn
    subst hn
    exact ⟨f node, rfl, rfl⟩
  | case2 node a b rest child heq ih =>
    intro n hn
    simp only [nodeAtPathOrNullFrom, heq] at hn
    obtain ⟨c', hc', hres⟩ := ih n hn
    refine ⟨AnyNode.mk node.data (setFirstById node.children [a, b] c'), ?_, ?_⟩
    · simp [updateAt, heq, hc']
    · have hcid : (c'.data).map (·.id) = (child.data).map (·.id) :=
        updateAt_id_preserve f hf rest child c' hc'
      have hfind : childById (AnyNode.mk node.data (setFirstById node.children [a, b] c'))
          [a, b] = some c' :=
        find?_setFirstById node.children [a, b] child c' heq hcid
      simp [nodeAtPathOrNullFrom, hfind, hres]
  | case3 node a b rest heq =>
    intro n hn
    simp [nodeAtPathOrNullFrom, heq] at hn
  | case4 node a child heq =>
    intro n hn
    simp only [nodeAtPathOrNullFrom, heq, Option.some.injEq] at hn
    subst hn
    refine ⟨AnyNode.mk node.data (setFirstById node.children [a] (f child)), ?_, ?_⟩
    · simp [updateAt, heq]
    · have hfind : childById (AnyNode.mk node.data (setFirstById node.children [a] (f child)))
          [a] = some (f child) :=
        find?_setFirstById node.children [a] child (f child) heq (hf child)
      simp [nodeAtPathOrNullFrom, hfind]
  | case5 node a heq =>
    intro n hn
    simp [nodeAtPathOrNullFrom, heq] at hn

theorem updateAt_ident : ∀ (t : AnyNode) (p : List Char) (n : AnyNode),
    nodeAtPathOrNullFrom t p = some n → updateAt t p (fun m => m) = some t := by
  intro t p
  induction t, p using nodeAtPathOrNullFrom.induct with
  | case1 node => intro n _; rfl
  | case2 node a b rest child heq ih =>
    intro n hn
    simp only [nodeAtPathOrNullFrom, heq] at hn
    simp [updateAt, heq, ih n hn, setFirstById_self node.children [a, b] child heq,
      AnyNode.eta]
  | case3 node a b rest heq =>
    intro n hn
    simp [nodeAtPathOrNullFrom, heq] at hn
  | case4 node a child heq =>
    intro n hn
    simp [updateAt, heq, setFirstById_self node.children [a] child heq, AnyNode.eta]
  | case5 node a heq =>
    intro n hn
    simp [nodeAtPathOrNullFrom, heq] at hn

theorem nodeAt_append : ∀ (p : List Char), p.length % 2 = 0 →
    ∀ (t : AnyNode) (q : List Char),
      nodeAtPathOrNullFrom t (p ++ q) =
        (nodeAtPathOrNullFrom t p).bind (fun n => nodeAtPathOrNullFrom n q)
  | [], _, t, q => by simp [nodeAtPathOrNullFrom]
  | [a], hp, t, q => by simp at hp
  | a :: b :: rest, hp, t, q => by
    have hr : rest.length % 2 = 0 := by
      simp only [List.length_cons] at hp
      omega
    simp only [List.cons_append, nodeAtPathOrNullFrom]
    cases h : childById t [a, b] with
    | none => simp
    | some child => simpa using nodeAt_append rest hr child q

/-- C4 (counterexample): deleting the c5 variation from the scenario
game returns the last mainline node (Nf3), not the removed node's own
data (c5). -/
theorem C4_deleteNode_return_cex :
    (scenarioViewer.deleteNode ['e', '4', 'c', '5']).1 ≠ some c5d ∧
    (scenarioViewer.deleteNode ['e', '4', 'c', '5']).1 = some nf3d := by
  refine ⟨by decide, rfl⟩

/-- C4 (amended): deleteNode splices the addressed node (with its whole
subtree) out of its parent's child list by identifier match, but returns
the last node of the post-deletion mainline (none when that mainline is
empty), not the removed node's own data; when the parent path does not
resolve, or no child carries the trailing identifier, it returns none
and leaves the state unchanged. -/
theorem C4_deleteNode_spec (v : PgnViewer) (p : List Char) :
    (nodeAtPathOrNullFrom v.game.moves (p.take (p.length - 2)) = none →
      v.deleteNode p = (none, v)) ∧
    (∀ P, nodeAtPathOrNullFrom v.game.moves (p.take (p.length - 2)) = some P →
      P.children.findIdx?
        (fun child => child.data.map (·.id) == some (p.drop (p.length - 2))) = none →
      v.deleteNode p = (none, v)) ∧
    (∀ P i, nodeAtPathOrNullFrom v.game.moves (p.take (p.length - 2)) = some P →
      P.children.findIdx?
        (fun child => child.data.map (·.id) == some (p.drop (p.length - 2))) = some i →
      ∃ newRoot,
        updateAt v.game.moves (p.take (p.length - 2))
          (fun q => AnyNode.mk q.data (q.children.eraseIdx i)) = some newRoot ∧
        (v.deleteNode p).2 = { v with game := { v.game with moves := newRoot } } ∧
        nodeAtPathOrNullFrom newRoot (p.take (p.length - 2)) =
          some (AnyNode.mk P.data (P.children.eraseIdx i)) ∧
        (v.deleteNode p).1 = newRoot.mainline.get? (newRoot.mainline.length - 1)) := by
  refine ⟨fun h => ?_, fun P hP hIdx => ?_, fun P i hP hIdx => ?_⟩
  · simp [PgnViewer.deleteNode, h]
  · simp [PgnViewer.deleteNode, hP, hIdx]
  · obtain ⟨newRoot, hup, hres⟩ :=
      updateAt_resolves (fun q => AnyNode.mk q.data (q.children.eraseIdx i))
        (fun m => rfl) v.game.moves (p.take (p.length - 2)) P hP
    refine ⟨newRoot, hup, ?_, hres, ?_⟩ <;>
      simp [PgnViewer.deleteNode, hP, hIdx, hup]

/-- C4 (witness): the amended theorem applied to the concrete scenario
deletion, checking the spliced child list and the returned value. -/
theorem C4_deleteNode_spec_witness :
    ∃ newRoot,
      updateAt scenarioViewer.game.moves ['e', '4']
        (fun q => AnyNode.mk q.data (q.children.eraseIdx 1)) = some newRoot ∧
      (scenarioViewer.deleteNode ['e', '4', 'c', '5']).2 =
        { scenarioViewer with game := { scenarioViewer.game with moves := newRoot } } ∧
      nodeAtPathOrNullFrom newRoot ['e', '4'] =
        some (AnyNode.mk (some e4d)
          ([AnyNode.mk (some e5d) [AnyNode.mk (some nf3d) []],
            AnyNode.mk (some c5d) []].eraseIdx 1)) ∧
      (scenarioViewer.deleteNode ['e', '4', 'c', '5']).1 =
        newRoot.mainline.get? (newRoot.mainline.length - 1) :=
  (C4_deleteNode_spec scenarioViewer ['e', '4', 'c', '5']).2.2
    (AnyNode.mk (some e4d)
      [AnyNode.mk (some e5d) [AnyNode.mk (some nf3d) []], AnyNode.mk (some c5d) []])
    1 rfl rfl

/-- C2 (witness): the construction-time length invariant applied to the
concrete scenario game. -/
theorem C2_mainline_cache_witness :
    (Game.make scenarioTree ⟨some "1-0"⟩).mainline.length =
      (firstChildChain scenarioTree).length :=
  C2_mainline_cache.2.1 scenarioTree ⟨some "1-0"⟩ (by decide)

/-- An addNode call that reports failure leaves the viewer unchanged. -/
theorem addNode_fst_none (v : PgnViewer) (node : AnyNode) (p : List Char) :
    (v.addNode node p).1 = none → v.addNode node p = (none, v) := by
  unfold PgnViewer.addNode
  dsimp only
  split
  · intro h; simp at h
  · split
    · intro h; simp at h
    · intro _; rfl

/-- C5: insert is idempotent.  For a resolvable even-length parent path
and a node carrying a 2-character identifier: when a child with that
identifier already exists, addNode returns the existing path and leaves
the viewer untouched; otherwise it appends the node as the parent's last
child and returns the new path; and calling addNode a second time with
the same arguments returns the same path and the same state (so the
parent's child count is unchanged by the second call). -/
theorem C5_addNode_idempotent (v : PgnViewer) (node : AnyNode) (parentPath : List Char)
    (d : MoveData) (x y : Char) (hd : node.data = some d) (hid : d.id = [x, y])
    (heven : parentPath.length % 2 = 0)
    (P : AnyNode) (hres : nodeAtPathOrNullFrom v.game.moves parentPath = some P) :
    (∀ c, childById P d.id = some c →
      v.addNode node parentPath = (some (parentPath ++ d.id), v)) ∧
    (childById P d.id = none →
      ∃ newRoot, v.addNode node parentPath =
          (some (parentPath ++ d.id), { v with game := { v.game with moves := newRoot } }) ∧
        nodeAtPathOrNullFrom newRoot parentPath =
          some (AnyNode.mk P.data (P.children ++ [node]))) ∧
    ((v.addNode node parentPath).2.addNode node parentPath =
      ((v.addNode node parentPath).1, (v.addNode node parentPath).2)) := by
  have hn : (node.data.map (·.id)).getD [] = d.id := by rw [hd]; rfl
  have hdec : ∀ (t : AnyNode) (Q : AnyNode), nodeAtPathOrNullFrom t parentPath = some Q →
      nodeAtPathOrNullFrom t (parentPath ++ d.id) = childById Q d.id := by
    intro t Q hQ
    rw [nodeAt_append parentPath heven t d.id, hQ, hid]
    cases hq : childById Q [x, y] <;> simp [nodeAtPathOrNullFrom, hq]
  have main : ∀ c, childById P d.id = some c →
      v.addNode node parentPath = (some (parentPath ++ d.id), v) := by
    intro c hc
    have hfull : nodeAtPathOrNullFrom v.game.moves (parentPath ++ d.id) = some c := by
      rw [hdec v.game.moves P hres, hc]
    unfold PgnViewer.addNode
    dsimp only
    rw [hn, hfull]
  have mainNone : childById P d.id = none →
      ∃ newRoot, v.addNode node parentPath =
          (some (parentPath ++ d.id), { v with game := { v.game with moves := newRoot } }) ∧
        nodeAtPathOrNullFrom newRoot parentPath =
          some (AnyNode.mk P.data (P.children ++ [node])) := by
    intro hc
    have hfull : nodeAtPathOrNullFrom v.game.moves (parentPath ++ d.id) = none := by
      rw [hdec v.game.moves P hres, hc]
    obtain ⟨newRoot, hup, hres2⟩ :=
      updateAt_resolves (fun parent => AnyNode.mk parent.data (parent.children ++ [node]))
        (fun m => rfl) v.game.moves parentPath P hres
    refine ⟨newRoot, ?_, hres2⟩
    unfold PgnViewer.addNode
    dsimp only
    rw [hn, hfull, hup]
  refine ⟨main, mainNone, ?_⟩
  cases hc : childById P d.id with
  | some c =>
    rw [main c hc]
    exact main c hc
  | none =>
    obtain ⟨newRoot, heq, hres2⟩ := mainNone hc
    rw [heq]
    have hfull2 : nodeAtPathOrNullFrom newRoot (parentPath ++ d.id) = some node := by
      rw [hdec newRoot (AnyNode.mk P.data (P.children ++ [node])) hres2]
      show (P.children ++ [node]).find? (fun child => child.data.map (·.id) == some d.id)
        = some node
      rw [List.find?_append]
      have h1 : P.children.find? (fun child => child.data.map (·.id) == some d.id) = none := hc
      rw [h1]
      simp [List.find?, hd]
    show ({ v with game := { v.game with moves := newRoot } } : PgnViewer).addNode
        node parentPath = (some (parentPath ++ d.id), _)
    unfold PgnViewer.addNode
    dsimp only
    rw [hn, hfull2]

/-- C5 (witness): inserting a fresh move below e4-e5-Nf3 in the concrete
scenario, then checking the idempotence conjunct on the same call. -/
theorem C5_addNode_idempotent_witness :
    (scenarioViewer.addNode (AnyNode.mk (some ⟨['g', '1'], "g6", 4, [], [], []⟩) [])
        ['e', '4', 'c', '5']).2.addNode
      (AnyNode.mk (some ⟨['g', '1'], "g6", 4, [], [], []⟩) []) ['e', '4', 'c', '5'] =
    ((scenarioViewer.addNode (AnyNode.mk (some ⟨['g', '1'], "g6", 4, [], [], []⟩) [])
        ['e', '4', 'c', '5']).1,
      (scenarioViewer.addNode (AnyNode.mk (some ⟨['g', '1'], "g6", 4, [], [], []⟩) [])
        ['e', '4', 'c', '5']).2) :=
  (C5_addNode_idempotent scenarioViewer
    (AnyNode.mk (some ⟨['g', '1'], "g6", 4, [], [], []⟩) []) ['e', '4', 'c', '5']
    ⟨['g', '1'], "g6", 4, [], [], []⟩ 'g' '1' rfl rfl (by decide)
    (AnyNode.mk (some c5d) []) rfl).2.2

/-- C6: insertSequence (addNodes) folds insert over the sequence,
threading each returned path as the next parent; when an insert fails it
stops there and returns none, and the state it returns is the one the
successful prefix produced — the earlier inserts are NOT rolled back. -/
theorem C6_addNodes_no_rollback (nodes₁ : List AnyNode) :
    ∀ (v v₁ : PgnViewer) (nodes₂ : List AnyNode) (n : AnyNode) (p p₁ : List Char),
      v.addNodes nodes₁ p = (some p₁, v₁) →
      (v₁.addNode n p₁).1 = none →
      v.addNodes (nodes₁ ++ n :: nodes₂) p = (none, v₁) := by
  induction nodes₁ with
  | nil =>
    intro v v₁ nodes₂ n p p₁ hpre hfail
    unfold PgnViewer.addNodes at hpre
    injection hpre with h1 h2
    injection h1 with h1
    subst h1
    subst h2
    simp only [List.nil_append]
    unfold PgnViewer.addNodes
    rw [addNode_fst_none v n p hfail]
  | cons m rest ih =>
    intro v v₁ nodes₂ n p p₁ hpre hfail
    simp only [List.cons_append]
    unfold PgnViewer.addNodes at hpre ⊢
    cases hm : v.addNode m p with
    | mk r v' =>
      rw [hm] at hpre
      cases r with
      | some q =>
        exact ih v' v₁ nodes₂ n q p₁ hpre hfail
      | none =>
        exact absurd hpre (by simp)

/-- C6 (witness): applied with an empty successful prefix and an insert
whose parent path does not resolve in the scenario game. -/
theorem C6_addNodes_no_rollback_witness :
    scenarioViewer.addNodes
        [AnyNode.mk (some ⟨['q', 'q'], "a3", 5, [], [], []⟩) []] ['z', 'z'] =
      (none, scenarioViewer) :=
  C6_addNodes_no_rollback [] scenarioViewer scenarioViewer
    [] (AnyNode.mk (some ⟨['q', 'q'], "a3", 5, [], [], []⟩) []) ['z', 'z'] ['z', 'z']
    rfl (by decide)

theorem withComments_ident (n : AnyNode) : withComments n (fun cs => cs) = n := by
  cases n with
  | mk d cs => cases d <;> rfl

/-- Fixture for C8: a single move whose node carries two comments. -/
def c8d : MoveData := ⟨['a', 'b'], "e4", 1, ['a', 'b'], ["first", "second"], []⟩

def c8Viewer : PgnViewer :=
  { game := Game.make (.mk none [.mk (some c8d) []]) ⟨none⟩, path := Path.root }

/-- C8 (counterexample): deleteComment with the negative index -1 is not
a no-op — the JS guard index < comments.length passes for every negative
index and splice(-1, 1) removes the last comment. -/
theorem C8_negative_index_cex :
    (nodeAtPathOrNullFrom (c8Viewer.deleteComment ['a', 'b'] (-1)).game.moves
        ['a', 'b']).bind AnyNode.data = some { c8d with comments := ["first"] } ∧
    (nodeAtPathOrNullFrom c8Viewer.game.moves ['a', 'b']).bind AnyNode.data = some c8d ∧
    ({ c8d with comments := ["first"] } : MoveData) ≠ c8d := by
  refine ⟨rfl, rfl, by decide⟩

/-- C8 (amended): an index at or beyond the comment list's length leaves
editComment and deleteComment as no-ops, as does an unresolvable path;
a negative index still passes the JS guard: editComment then leaves the
list unchanged (negative indexed assignment creates a non-index
property), while deleteComment deletes counting from the end. -/
theorem C8_comment_index_bounds (v : PgnViewer) (p : List Char) (i : Int) (s : String) :
    (∀ node d, nodeAtPathOrNullFrom v.game.moves p = some node → node.data = some d →
      (d.comments.length : Int) ≤ i →
      v.editComment p i s = v ∧ v.deleteComment p i = v) ∧
    (nodeAtPathOrNullFrom v.game.moves p = none →
      v.editComment p i s = v ∧ v.deleteComment p i = v) ∧
    (i < 0 → v.editComment p i s = v) := by
  refine ⟨fun node d hres hd hle => ⟨?_, ?_⟩, fun hres => ⟨?_, ?_⟩, fun hi => ?_⟩
  · simp only [PgnViewer.editComment, hres, hd, if_neg (not_lt.mpr hle)]
  · simp only [PgnViewer.deleteComment, hres, hd, if_neg (not_lt.mpr hle)]
  · simp only [PgnViewer.editComment, hres]
  · simp only [PgnViewer.deleteComment, hres]
  · cases hres : nodeAtPathOrNullFrom v.game.moves p with
    | none => simp only [PgnViewer.editComment, hres]
    | some node =>
      cases hd : node.data with
      | none => simp only [PgnViewer.editComment, hres, hd]
      | some d =>
        have hcond : i < (d.comments.length : Int) := by omega
        have hfn : (fun n => withComments n (fun cs => jsIndexAssign cs i s)) =
            (fun n => n) := by
          funext n
          rw [show (fun cs : List String => jsIndexAssign cs i s) = (fun cs => cs) from
            funext fun cs => by unfold jsIndexAssign; rw [if_neg (not_le.mpr hi)]]
          exact withComments_ident n
        have hup := updateAt_ident v.game.moves p node hres
        simp only [PgnViewer.editComment, hres, hd, if_pos hcond, hfn, hup]

/-- C8 (witness): the amended theorem applied to the two-comment fixture
at the out-of-range index 5 and at the negative index -3. -/
theorem C8_comment_index_bounds_witness :
    (c8Viewer.editComment ['a', 'b'] 5 "x" = c8Viewer ∧
      c8Viewer.deleteComment ['a', 'b'] 5 = c8Viewer) ∧
    c8Viewer.editComment ['a', 'b'] (-3) "x" = c8Viewer :=
  ⟨(C8_comment_index_bounds c8Viewer ['a', 'b'] 5 "x").1
      (AnyNode.mk (some c8d) []) c8d rfl rfl (by decide),
    (C8_comment_index_bounds c8Viewer ['a', 'b'] (-3) "x").2.2 (by decide)⟩

/-- C9: Path round-trips.  Appending a 2-character identifier and taking
init returns the original path; appending n identifiers to the root and
taking tail n times returns to the root; and init and tail of the root
are the root again, so parent steps never underflow. -/
theorem C9_path_roundtrip :
    (∀ (p : Path) (id : List Char), id.length = 2 → (p.append id).init = p) ∧
    (∀ ids : List (List Char), (∀ id ∈ ids, id.length = 2) →
      Path.tail^[ids.length] (ids.foldl Path.append Path.root) = Path.root) ∧
    Path.init Path.root = Path.root ∧ Path.tail Path.root = Path.root := by
  have hjoin : ∀ (ids : List (List Char)) (p : Path),
      ids.foldl Path.append p = ⟨p.path ++ ids.join⟩ := by
    intro ids
    induction ids with
    | nil => intro p; cases p; simp
    | cons idh idt ih =>
      intro p
      simp only [List.foldl_cons, ih, Path.append, List.join_cons, List.append_assoc]
  have htails : ∀ ids : List (List Char), (∀ id ∈ ids, id.length = 2) →
      Path.tail^[ids.length] (⟨ids.join⟩ : Path) = Path.root := by
    intro ids
    induction ids with
    | nil => intro _; rfl
    | cons idh idt ih =>
      intro h
      have hh : idh.length = 2 := h idh (by simp)
      rw [List.length_cons, Function.iterate_succ_apply]
      have hstep : Path.tail ⟨(idh :: idt).join⟩ = ⟨idt.join⟩ := by
        show Path.mk (((idh :: idt).join).drop 2) = Path.mk idt.join
        rw [show (idh :: idt).join = idh ++ idt.join from rfl, ← hh, List.drop_left]
      rw [hstep]
      exact ih (fun id hid => h id (by simp [hid]))
  refine ⟨fun p id hid => ?_, fun ids h => ?_, rfl, rfl⟩
  · cases p with
    | mk l =>
      unfold Path.append Path.init
      have h1 : ((l ++ id).length - 2) = l.length := by
        simp [List.length_append, hid]
      show Path.mk ((l ++ id).take ((Path.mk (l ++ id)).path.length - 2)) = Path.mk l
      rw [show (Path.mk (l ++ id)).path = l ++ id from rfl, h1, List.take_left]
  · rw [hjoin ids Path.root]
    simpa using htails ids h

/-- C9 (witness): the round-trip laws at the concrete identifiers ab and
cd. -/
theorem C9_path_roundtrip_witness :
    ((Path.mk ['a', 'b']).append ['c', 'd']).init = Path.mk ['a', 'b'] ∧
    Path.tail^[2] ([['a', 'b'], ['c', 'd']].foldl Path.append Path.root) = Path.root :=
  ⟨C9_path_roundtrip.1 ⟨['a', 'b']⟩ ['c', 'd'] rfl,
    C9_path_roundtrip.2.1 [['a', 'b'], ['c', 'd']] (by decide)⟩

/-!  Fixture for C10: a single straight line of 10001 plies, long enough
to reach the 9999 sentinel pathAtMainlinePly uses for the "last"
argument.  Node k carries a path of k characters, so the paths of
distinct plies differ. -/

def chainData (k : Nat) : MoveData :=
  ⟨['a', 'a'], "m", k, List.replicate k 'a', [], []⟩

def chainNode : Nat → Nat → AnyNode
  | 0, k => .mk (some (chainData k)) []
  | n + 1, k => .mk (some (chainData k)) [chainNode n (k + 1)]

def bigGame : Game := Game.make (.mk none [chainNode 10000 1]) ⟨none⟩

theorem chainNode_data (n k : Nat) : (chainNode n k).data = some (chainData k) := by
  cases n <;> rfl

theorem chain_mainline : ∀ (n k : Nat),
    (chainNode n k).mainline = (List.range' (k + 1) n).map chainData := by
  intro n
  induction n with
  | zero => intro k; rfl
  | succ m ih =>
    intro k
    show AnyNode.mainline (.mk (some (chainData k)) [chainNode m (k + 1)]) = _
    simp only [AnyNode.mainline]
    rw [chainNode_data m (k + 1), ih (k + 1), List.range'_succ]
    simp only [Option.toList_some, List.singleton_append, List.map_cons]

theorem root_chain_mainline (n : Nat) :
    AnyNode.mainline (.mk none [chainNode n 1]) = (List.range' 1 (n + 1)).map chainData := by
  rw [show AnyNode.mainline (.mk none [chainNode n 1]) =
    (chainNode n 1).data.toList ++ AnyNode.mainline (chainNode n 1) from rfl]
  rw [chainNode_data, chain_mainline, List.range'_succ]
  simp only [Option.toList_some, List.singleton_append, List.map_cons]

theorem bigGame_mainline : bigGame.mainline = (List.range' 1 10001).map chainData :=
  root_chain_mainline 10000

theorem bigGame_len : bigGame.mainline.length = 10001 := by
  rw [bigGame_mainline, List.length_map, List.length_range']

theorem bigGame_get (i : Nat) (h : i < 10001) :
    bigGame.mainline.get? i = some (chainData (1 + i)) := by
  rw [bigGame_mainline, List.get?_map, List.get?_range' _ _ h]
  simp only [Nat.one_mul]
  rfl

/-- C10 (counterexample): on a game of 10001 plies the "last" argument
resolves the 9999 sentinel index, yielding the path of ply 10000 — not
the path of the final mainline node (ply 10001). -/
theorem C10_last_sentinel_cex :
    bigGame.mainline.length = 10001 ∧
    (bigGame.mainline.get? (bigGame.mainline.length - 1)).map
        (fun d => (⟨d.path⟩ : Path)) = some ⟨List.replicate 10001 'a'⟩ ∧
    bigGame.pathAtMainlinePly .last = ⟨List.replicate 10000 'a'⟩ ∧
    (⟨List.replicate 10000 'a'⟩ : Path) ≠ ⟨List.replicate 10001 'a'⟩ := by
  have hlast : bigGame.mainline.get? 10000 = some (chainData 10001) :=
    bigGame_get 10000 (by norm_num)
  refine ⟨bigGame_len, ?_, ?_, ?_⟩
  · rw [bigGame_len]
    show (bigGame.mainline.get? 10000).map (fun d => (⟨d.path⟩ : Path)) = _
    rw [hlast]
    rfl
  · have hidx : (max 0 (min ((bigGame.mainline.length : Int) - 1) 9999)).toNat = 9999 := by
      rw [bigGame_len]
      omega
    unfold Game.pathAtMainlinePly
    dsimp only
    rw [hidx, bigGame_get 9999 (by norm_num)]
    rfl
  · intro h
    have hlen := congrArg (fun q => q.path.length) h
    simp only [List.length_replicate] at hlen
    exact absurd hlen (by norm_num)

/-- C10 (amended): pathAtMainlinePly is total and clamping — ply 0 gives
the root path, an empty mainline gives the root path for every argument,
a numeric ply at least 1 gives the mainline node at the clamped index
min(ply - 1, length - 1), and "last" behaves as the clamped sentinel
index min(9999, length - 1); so in-range plies, overshooting plies, and
"last" on games of at most 10000 plies all land on existing mainline
nodes, and "last" equals the final node only up to the sentinel. -/
theorem C10_pathAtMainlinePly_total (g : Game) :
    (g.pathAtMainlinePly (.num 0) = Path.root) ∧
    (g.mainline = [] → ∀ a, g.pathAtMainlinePly a = Path.root) ∧
    (∀ k d, 1 ≤ k → g.mainline.get? (min (k - 1) (g.mainline.length - 1)) = some d →
      g.pathAtMainlinePly (.num k) = ⟨d.path⟩) ∧
    (∀ d, g.mainline.get? (min 9999 (g.mainline.length - 1)) = some d →
      g.pathAtMainlinePly .last = ⟨d.path⟩) := by
  refine ⟨rfl, fun hml a => ?_, fun k d hk hget => ?_, fun d hget => ?_⟩
  · rcases a with (_ | k) | _
    · rfl
    · unfold Game.pathAtMainlinePly
      dsimp only
      rw [hml]
      have hidx : (max 0 (min ((([] : List MoveData).length : Int) - 1)
          (((k + 1 : Nat) : Int) - 1))).toNat = 0 := by
        simp only [List.length_nil]
        omega
      rw [hidx]
      rfl
    · unfold Game.pathAtMainlinePly
      dsimp only
      rw [hml]
      have hidx : (max 0 (min ((([] : List MoveData).length : Int) - 1) 9999)).toNat = 0 := by
        simp only [List.length_nil]
        omega
      rw [hidx]
      rfl
  · cases k with
    | zero => omega
    | succ k =>
      unfold Game.pathAtMainlinePly
      dsimp only
      have hidx : (max 0 (min ((g.mainline.length : Int) - 1)
          (((k + 1 : Nat) : Int) - 1))).toNat = min k (g.mainline.length - 1) := by
        have hlen : 0 < g.mainline.length := by
          by_contra hcon
          have hnil : g.mainline = [] := by
            cases hml : g.mainline with
            | nil => rfl
            | cons x xs => rw [hml] at hcon; simp at hcon
          rw [hnil] at hget
          simp at hget
        push_cast
        omega
      rw [hidx]
      have : min (k + 1 - 1) (g.mainline.length - 1) = min k (g.mainline.length - 1) := rfl
      rw [this] at hget
      rw [hget]
      rfl
  · unfold Game.pathAtMainlinePly
    dsimp only
    have hidx : (max 0 (min ((g.mainline.length : Int) - 1) 9999)).toNat =
        min 9999 (g.mainline.length - 1) := by
      have hlen : 0 < g.mainline.length := by
        by_contra hcon
        have hnil : g.mainline = [] := by
          cases hml : g.mainline with
          | nil => rfl
          | cons x xs => rw [hml] at hcon; simp at hcon
        rw [hnil] at hget
        simp at hget
      omega
    rw [hidx, hget]

/-- C10 (witness): the clamping law on the concrete scenario game (an
in-range ply, an overshooting ply, the "last" marker) and the
empty-mainline fallback. -/
theorem C10_pathAtMainlinePly_total_witness :
    scenarioViewer.game.pathAtMainlinePly (.num 2) = ⟨e5d.path⟩ ∧
    scenarioViewer.game.pathAtMainlinePly (.num 7) = ⟨nf3d.path⟩ ∧
    scenarioViewer.game.pathAtMainlinePly .last = ⟨nf3d.path⟩ ∧
    (Game.make (.mk none []) ⟨none⟩).pathAtMainlinePly (.num 5) = Path.root :=
  ⟨(C10_pathAtMainlinePly_total scenarioViewer.game).2.2.1 2 e5d (by decide) rfl,
    (C10_pathAtMainlinePly_total scenarioViewer.game).2.2.1 7 nf3d (by decide) rfl,
    (C10_pathAtMainlinePly_total scenarioViewer.game).2.2.2 nf3d rfl,
    (C10_pathAtMainlinePly_total (Game.make (.mk none []) ⟨none⟩)).2.1 rfl (.num 5)⟩

end Pgn
